import Mathlib

/-!
Verification of the opportunity-analysis pipeline of
`src/ai_analyzer.py` (analizador_de_conversaciones).

The Python source is shallowly embedded below:
* `datetime` values are modelled as natural-number timestamps;
* Python `dict` records with optional keys become structures of `Option` fields;
* code that can raise returns `Except String`;
* Python's randomized string `hash` is an explicit parameter `pyHash`;
* the two external effects (the text-analysis backend call and JSON
  decoding) are oracle parameters `api` and `decode`;
* Python `set` iteration order is unspecified, so `list(set(...))` is
  modelled as first-occurrence deduplication (`List.eraseDups`); no claim
  below depends on that order;
* cosine similarities are modelled as rationals.
-/

/-- `ContentItem` from `content_extractor.py` (the fields consumed by the
analysis pipeline; the free-form `metadata` dict is opaque and unused). -/
structure ContentItem where
  id : String
  content_type : String
  content : String
  source_file : String
  timestamp : Option Nat
  customer_id : Option String
deriving DecidableEq, Repr

/-- The `Opportunity` dataclass of `ai_analyzer.py`. -/
structure Opportunity where
  id : String
  title : String
  description : String
  category : String
  severity : String
  frequency : Int
  sources : List String
  keywords : List String
  created_at : Nat
  updated_at : Nat
  processing_date : Nat
  status : String
  comments : String
  merged_from : List String
deriving DecidableEq, Repr

/-- A raw opportunity record as decoded from the model's JSON output:
a dict whose keys may each be absent. -/
structure OppData where
  title : Option String
  description : Option String
  category : Option String
  severity : Option String
  keywords : Option (List String)
deriving DecidableEq, Repr

/-- The decoded shape consumed by `_analyze_single_item`:
`analysis_result.get('opportunities', [])`. -/
structure AiResponse where
  opportunities : List OppData
deriving DecidableEq, Repr

/-- Placeholder record used only as the default of `List.getD` at indices
that are always in range. -/
def dOpp : Opportunity :=
  { id := "", title := "", description := "", category := "", severity := ""
    frequency := 0, sources := [], keywords := [], created_at := 0
    updated_at := 0, processing_date := 0, status := "", comments := ""
    merged_from := [] }

/-- Python `str.strip()` whitespace (ASCII subset). -/
def isPySpace (c : Char) : Bool :=
  c = ' ' ∨ c = '\t' ∨ c = '\n' ∨ c = '\r' ∨ c = '\x0b' ∨ c = '\x0c'

/-- Python `str.strip()`: drop leading and trailing whitespace. -/
def pyStrip (s : String) : String :=
  String.mk (((s.toList.dropWhile isPySpace).reverse.dropWhile isPySpace).reverse)

/-- Python `str.lower()` (ASCII). -/
def pyLower (s : String) : String :=
  String.mk (s.toList.map Char.toLower)

/-- `AIAnalyzer._create_opportunity_from_analysis`.  The id derivation
`f"opp_{content_item.id}_{hash(opp_data['title']) % 10000}"` subscripts
`opp_data['title']` directly, so a record without a title raises `KeyError`
before any default can apply; Python's `%` on a positive modulus is
`Int.emod`. -/
def createOpportunityFromAnalysis (pyHash : String → Int) (oppData : OppData)
    (contentItem : ContentItem) (now : Nat) (processingDate : Option Nat) :
    Except String Opportunity :=
  let procDate := processingDate.getD now
  match oppData.title with
  | none => .error "KeyError: 'title'"
  | some t =>
      .ok
        { id := "opp_" ++ contentItem.id ++ "_" ++ toString (pyHash t % 10000)
          title := oppData.title.getD "Oportunidad sin título"
          description := oppData.description.getD "Sin descripción"
          category := oppData.category.getD "improvement_opportunity"
          severity := oppData.severity.getD "medium"
          frequency := 1
          sources := [contentItem.id]
          keywords := oppData.keywords.getD []
          created_at := now
          updated_at := now
          processing_date := procDate
          status := "nueva"
          comments := ""
          merged_from := [] }

/-- The prefix of `l` ending at the last `'}'` of `l` (greedy `.*` of the
regex); `[]` when `l` has no `'}'`. -/
def upToLastRBrace : List Char → List Char
  | [] => []
  | c :: rest =>
      if '}' ∈ rest then c :: upToLastRBrace rest
      else if c = '}' then [c] else []

/-- `re.search(r'\x7b.*\x7d', text, re.DOTALL)`: the leftmost match starts
at the first `'{'` that is followed by some `'}'`, and the greedy `.*`
extends it to the last `'}'` of the string. -/
def findJsonMatch : List Char → Option (List Char)
  | [] => none
  | c :: rest =>
      if c = '{' ∧ '}' ∈ rest then some (c :: upToLastRBrace rest)
      else findJsonMatch rest

/-- `AIAnalyzer._parse_ai_response`: extract the brace-delimited region and
decode it; on a missing region or a decode failure return
`{"opportunities": []}`.  `decode` is the `json.loads` oracle composed with
the dict shaping (`None` models a `json.JSONDecodeError`). -/
def parseAiResponse (decode : String → Option AiResponse) (responseText : String) :
    AiResponse :=
  match findJsonMatch responseText.toList with
  | none => { opportunities := [] }
  | some region =>
      match decode (String.mk region) with
      | none => { opportunities := [] }
      | some v => v

/-- `self._analyze_multiple_items(content_items)`: the method
`_analyze_multiple_items` is defined nowhere in the repository, so the
attribute lookup raises `AttributeError` on every call; the caller catches
it. -/
def analyzeMultipleItems (contentItems : List ContentItem) :
    Except String (List Opportunity) :=
  .error "AttributeError: _analyze_multiple_items"

/-- `AIAnalyzer._analyze_single_item`: build the prompt, call the backend
(oracle `api`, applied to the item whose prompt it renders), parse the
response, and convert each raw record; the enclosing `try` turns any
failure (backend error, or a `KeyError` while converting a record) into an
empty result list. -/
def analyzeSingleItem (api : ContentItem → Except String String)
    (decode : String → Option AiResponse) (pyHash : String → Int) (now : Nat)
    (contentItem : ContentItem) : List Opportunity :=
  match api contentItem with
  | .error _ => []
  | .ok text =>
      let analysisResult := parseAiResponse decode text
      match analysisResult.opportunities.mapM
          (fun d => createOpportunityFromAnalysis pyHash d contentItem now none) with
      | .error _ => []
      | .ok opps => opps

/-- `AIAnalyzer._analyze_batch`: a single item goes through the size-1 path
(whose failures are already absorbed inside `_analyze_single_item`);
a larger batch attempts the consolidated call and falls back to per-item
processing when it raises. -/
def analyzeBatch (api : ContentItem → Except String String)
    (decode : String → Option AiResponse) (pyHash : String → Int) (now : Nat)
    (contentItems : List ContentItem) : List Opportunity :=
  match contentItems with
  | [item] => analyzeSingleItem api decode pyHash now item
  | _ =>
      match analyzeMultipleItems contentItems with
      | .ok opps => opps
      | .error _ =>
          (contentItems.map (analyzeSingleItem api decode pyHash now)).join

/-- The `severity_order` dict lookup `severity_order.get(severity, 0)` of
`OpportunityDeduplicator._get_highest_severity`. -/
def severity_order (s : String) : Nat :=
  if s = "low" then 1
  else if s = "medium" then 2
  else if s = "high" then 3
  else if s = "critical" then 4
  else 0

/-- The accumulation loop of `_get_highest_severity`: keep the current best
string and its rank, replacing them only on a strict improvement. -/
def sevLoop : List String → String → Nat → String
  | [], hs, _ => hs
  | s :: rest, hs, hv =>
      if hv < severity_order s then sevLoop rest s (severity_order s)
      else sevLoop rest hs hv

/-- `OpportunityDeduplicator._get_highest_severity`. -/
def getHighestSeverity (severities : List String) : String :=
  sevLoop severities "low" 0

/-- The dedup loop of `_merge_descriptions`: `seen` holds the
stripped-lowercased keys of the descriptions kept so far; a description is
kept (stripped) when its key is new and non-empty. -/
def dedupDescs : List String → List String → List String
  | [], _ => []
  | d :: rest, seen =>
      if pyLower (pyStrip d) ∉ seen ∧ pyLower (pyStrip d) ≠ "" then
        pyStrip d :: dedupDescs rest (pyLower (pyStrip d) :: seen)
      else dedupDescs rest seen

/-- `OpportunityDeduplicator._merge_descriptions`. -/
def mergeDescriptions (descriptions : List String) : String :=
  match descriptions with
  | [d] => d
  | _ =>
      let u := dedupDescs descriptions []
      if u.length = 1 then u.headD "" else String.intercalate " | " u

/-- `OpportunityDeduplicator._merge_opportunity_group`.  `now` models
`datetime.now()`; the empty cluster is `none` (Python would raise
`IndexError` on `opportunities[0]`). -/
def mergeOpportunityGroup (now : Nat) : List Opportunity → Option Opportunity
  | [] => none
  | [o] => some o
  | o1 :: o2 :: rest =>
      let opps := o1 :: o2 :: rest
      some
        { id := o1.id
          title := o1.title
          description := mergeDescriptions (opps.map (·.description))
          category := o1.category
          severity := getHighestSeverity (opps.map (·.severity))
          frequency := opps.foldl (fun acc o => acc + o.frequency) 0
          sources := (opps.foldl (fun acc o => acc ++ o.sources) []).eraseDups
          keywords := (opps.foldl (fun acc o => acc ++ o.keywords) []).eraseDups
          created_at := ((o2 :: rest).map (·.created_at)).foldl Nat.min o1.created_at
          updated_at := now
          processing_date :=
            ((o2 :: rest).map (·.processing_date)).foldl Nat.min o1.processing_date
          status := o1.status
          comments := o1.comments
          merged_from := (opps.filter (fun o => o.id ≠ o1.id)).map (·.id) }

/-- The inner loop of `_find_similarity_groups`: scan the indices after the
seed `i`, attaching every unvisited `j` whose similarity to the seed
reaches the threshold and marking it visited. -/
def innerScan (sim : Nat → Nat → ℚ) (th : ℚ) (i : Nat) :
    List Nat → List Bool → List Nat × List Bool
  | [], visited => ([], visited)
  | j :: js, visited =>
      if visited.getD j false = false ∧ th ≤ sim i j then
        let r := innerScan sim th i js (visited.set j true)
        (j :: r.1, r.2)
      else innerScan sim th i js visited

/-- The outer loop of `_find_similarity_groups`: each unvisited index seeds
a new group built by `innerScan` over the later indices. -/
def outerScan (sim : Nat → Nat → ℚ) (th : ℚ) (n : Nat) :
    List Nat → List Bool → List (List Nat)
  | [], _ => []
  | i :: is, visited =>
      if visited.getD i false = true then outerScan sim th n is visited
      else
        let r := innerScan sim th i (List.range' (i + 1) (n - (i + 1)))
          (visited.set i true)
        (i :: r.1) :: outerScan sim th n is r.2

/-- `OpportunityDeduplicator._find_similarity_groups`: `sim i j` is the
cosine-similarity matrix entry, `th` the threshold. -/
def findSimilarityGroups (sim : Nat → Nat → ℚ) (th : ℚ)
    (opportunities : List Opportunity) : List (List Opportunity) :=
  let n := opportunities.length
  (outerScan sim th n (List.range n) (List.replicate n false)).map
    (fun g => g.map (fun i => opportunities.getD i dOpp))

/-! ### Sample values used by concrete witnesses and counterexamples -/

/-- A concrete opportunity with the given id/severity/description. -/
def mkOpp (i sev desc : String) : Opportunity :=
  { id := i, title := i, description := desc, category := "pain_point"
    severity := sev, frequency := 1, sources := [i], keywords := []
    created_at := 0, updated_at := 0, processing_date := 0, status := "nueva"
    comments := "", merged_from := [] }

/-- A concrete content item. -/
def itemW : ContentItem :=
  { id := "item1", content_type := "ticket", content := "c"
    source_file := "f.xlsx", timestamp := none, customer_id := none }

/-- A raw record with title `"a"` and nothing else. -/
def dataA : OppData :=
  { title := some "a", description := none, category := none, severity := none
    keywords := none }

/-- A raw record with title `"b"` and nothing else. -/
def dataB : OppData :=
  { title := some "b", description := none, category := none, severity := none
    keywords := none }

/-- A raw record lacking the `title` key. -/
def noTitleData : OppData :=
  { title := none, description := some "d", category := some "pain_point"
    severity := some "high", keywords := some ["k"] }

/-! ### Helper lemmas -/

/-- The severity field of a merged two-or-more cluster is
`_get_highest_severity` of the members' severities. -/
theorem merge_severity_eq (now : Nat) (l : List Opportunity) (m : Opportunity)
    (h : 2 ≤ l.length) (hm : mergeOpportunityGroup now l = some m) :
    m.severity = getHighestSeverity (l.map (·.severity)) := by
  match l with
  | [] => simp at h
  | [o] => simp at h
  | a :: b :: rest =>
      simp only [mergeOpportunityGroup, Option.some.injEq] at hm
      rw [← hm]

/-- Accumulating frequencies with `foldl` is adding the list sum. -/
theorem foldl_add_frequency (l : List Opportunity) (acc : Int) :
    l.foldl (fun acc o => acc + o.frequency) acc = acc + (l.map (·.frequency)).sum := by
  induction l generalizing acc with
  | nil => simp
  | cons a t ih => simp [ih, add_assoc]

/-- `findJsonMatch` fails exactly when no `'{'` is followed by a `'}'`;
here the direction the parser claim needs. -/
theorem findJsonMatch_eq_none (l : List Char)
    (h : ¬ ∃ i j, i < j ∧ l.get? i = some '{' ∧ l.get? j = some '}') :
    findJsonMatch l = none := by
  induction l with
  | nil => rfl
  | cons c rest ih =>
      rw [findJsonMatch]
      by_cases hc : c = '{' ∧ '}' ∈ rest
      · exfalso
        obtain ⟨k, hk⟩ := List.mem_iff_get?.mp hc.2
        exact h ⟨0, k + 1, Nat.succ_pos k, by simp [hc.1], by simpa using hk⟩
      · rw [if_neg hc]
        apply ih
        rintro ⟨i, j, hij, hi, hj⟩
        exact h ⟨i + 1, j + 1, Nat.succ_lt_succ hij, by simpa using hi,
          by simpa using hj⟩

/-! ### Claims -/

/-- Claim C9: merging a single-element cluster returns that very element,
with every field unchanged. -/
theorem C9_singleton_merge_identity (now : Nat) (o : Opportunity) :
    mergeOpportunityGroup now [o] = some o := rfl

/-- Claim C3: for every non-empty cluster the merged frequency is the sum of
the members' frequencies, hence at least 1 when every member frequency is. -/
theorem C3_merged_frequency_is_sum (now : Nat) (l : List Opportunity)
    (h : l ≠ []) :
    ∃ m, mergeOpportunityGroup now l = some m ∧
      m.frequency = (l.map (·.frequency)).sum ∧
      ((∀ o ∈ l, 1 ≤ o.frequency) → 1 ≤ m.frequency) := by
  match l with
  | [] => exact absurd rfl h
  | [o] =>
      refine ⟨o, rfl, by simp, fun hf => hf o (by simp)⟩
  | o1 :: o2 :: rest =>
      refine ⟨_, rfl, ?_, ?_⟩
      · show (o1 :: o2 :: rest).foldl (fun acc o => acc + o.frequency) 0 = _
        rw [foldl_add_frequency, zero_add]
      · intro hf
        show 1 ≤ (o1 :: o2 :: rest).foldl (fun acc o => acc + o.frequency) 0
        rw [foldl_add_frequency, zero_add]
        have h1 : 1 ≤ o1.frequency := hf o1 (by simp)
        have h2 : 0 ≤ ((o2 :: rest).map (·.frequency)).sum := by
          apply List.sum_nonneg
          intro x hx
          obtain ⟨o, ho, rfl⟩ := List.mem_map.mp hx
          exact le_trans zero_le_one (hf o (by simp [ho]))
        have e : ((o1 :: o2 :: rest).map (·.frequency)).sum
            = o1.frequency + ((o2 :: rest).map (·.frequency)).sum := by
          rw [List.map_cons, List.sum_cons]
        rw [e]
        omega

/-- A witness for C3 at a concrete singleton cluster. -/
theorem C3_merged_frequency_is_sum_witness :
    ∃ m, mergeOpportunityGroup 5 [mkOpp "w" "low" "d"] = some m ∧
      m.frequency = ([mkOpp "w" "low" "d"].map (·.frequency)).sum ∧
      ((∀ o ∈ [mkOpp "w" "low" "d"], 1 ≤ o.frequency) → 1 ≤ m.frequency) :=
  C3_merged_frequency_is_sum 5 [mkOpp "w" "low" "d"] (by decide)

/-- Claim C2 (code bug evaluation): with a title present the factory applies
the documented defaults for every other missing field, but a record lacking a
title raises `KeyError` at the id derivation instead of producing an
opportunity with the placeholder title. -/
theorem C2_factory_defaults_and_missing_title_raises :
    (∀ (pyHash : String → Int) (item : ContentItem) (now : Nat)
        (pd : Option Nat) (t : String),
      createOpportunityFromAnalysis pyHash
          { title := some t, description := none, category := none
            severity := none, keywords := none } item now pd
        = .ok
          { id := "opp_" ++ item.id ++ "_" ++ toString (pyHash t % 10000)
            title := t
            description := "Sin descripción"
            category := "improvement_opportunity"
            severity := "medium"
            frequency := 1
            sources := [item.id]
            keywords := []
            created_at := now
            updated_at := now
            processing_date := pd.getD now
            status := "nueva"
            comments := ""
            merged_from := [] })
    ∧ createOpportunityFromAnalysis (fun _ => 0) noTitleData itemW 0 none
        = .error "KeyError: 'title'" :=
  ⟨fun _ _ _ _ _ => rfl, rfl⟩

/-- Claim C4: the response parser is total; a missing brace region or a
failed decode yields the empty-opportunities record, a successful decode is
returned as is. -/
theorem C4_parser_never_raises (decode : String → Option AiResponse)
    (s : String) :
    ((¬ ∃ i j, i < j ∧ s.toList.get? i = some '{' ∧ s.toList.get? j = some '}') →
        parseAiResponse decode s = { opportunities := [] })
    ∧ (∀ r, findJsonMatch s.toList = some r → decode (String.mk r) = none →
        parseAiResponse decode s = { opportunities := [] })
    ∧ (∀ r v, findJsonMatch s.toList = some r → decode (String.mk r) = some v →
        parseAiResponse decode s = v) := by
  refine ⟨?_, ?_, ?_⟩
  · intro h
    unfold parseAiResponse
    rw [findJsonMatch_eq_none _ h]
  · intro r hr hd
    have hr' : findJsonMatch s.data = some r := hr
    simp [parseAiResponse, hr', hd]
  · intro r v hr hd
    have hr' : findJsonMatch s.data = some r := hr
    simp [parseAiResponse, hr', hd]

/-- A witness for C4: a concrete string whose brace region decodes. -/
theorem C4_parser_never_raises_witness :
    parseAiResponse (fun _ => some { opportunities := [dataA] }) "x{y}z"
      = { opportunities := [dataA] } :=
  (C4_parser_never_raises (fun _ => some { opportunities := [dataA] }) "x{y}z").2.2
    ['{', 'y', '}'] { opportunities := [dataA] } rfl rfl

/-- Claim C5: on a batch of more than one item the consolidated call raises
(the method it targets is undefined), and the batch result is exactly the
concatenation, in item order, of the size-1-path results, so the total count
matches individual processing. -/
theorem C5_batch_fallback_equivalence (api : ContentItem → Except String String)
    (decode : String → Option AiResponse) (pyHash : String → Int) (now : Nat)
    (items : List ContentItem) (h : 1 < items.length) :
    analyzeBatch api decode pyHash now items
      = (items.map (fun i => analyzeBatch api decode pyHash now [i])).join
    ∧ (analyzeBatch api decode pyHash now items).length
      = ((items.map (fun i => analyzeBatch api decode pyHash now [i])).join).length := by
  match items with
  | [] => simp at h
  | [x] => simp at h
  | a :: b :: rest =>
      have h1 : analyzeBatch api decode pyHash now (a :: b :: rest)
          = ((a :: b :: rest).map
              (fun i => analyzeBatch api decode pyHash now [i])).join := rfl
      exact ⟨h1, congrArg List.length h1⟩

/-- A witness for C5 at a concrete two-item batch. -/
theorem C5_batch_fallback_equivalence_witness :
    analyzeBatch (fun _ => .error "down") (fun _ => none) (fun _ => 0) 0
        [itemW, itemW]
      = ([itemW, itemW].map
          (fun i => analyzeBatch (fun _ => .error "down") (fun _ => none)
            (fun _ => 0) 0 [i])).join
    ∧ (analyzeBatch (fun _ => .error "down") (fun _ => none) (fun _ => 0) 0
        [itemW, itemW]).length
      = (([itemW, itemW].map
          (fun i => analyzeBatch (fun _ => .error "down") (fun _ => none)
            (fun _ => 0) 0 [i])).join).length :=
  C5_batch_fallback_equivalence (fun _ => .error "down") (fun _ => none)
    (fun _ => 0) 0 [itemW, itemW] (by decide)

/-! ### Severity ranking lemmas -/

/-- The four severity strings the ranking dict recognizes. -/
def recognizedSeverities : List String := ["low", "medium", "high", "critical"]

theorem severity_order_eq_zero {s : String} (h : s ∉ recognizedSeverities) :
    severity_order s = 0 := by
  simp only [recognizedSeverities, List.mem_cons, List.mem_singleton, not_or] at h
  obtain ⟨h1, h2, h3, h4⟩ := h
  simp [severity_order, h1, h2, h3, h4]

theorem severity_order_pos_of_mem {s : String} (h : s ∈ recognizedSeverities) :
    0 < severity_order s := by
  have : ∀ x ∈ recognizedSeverities, 0 < severity_order x := by decide
  exact this s h

theorem severity_order_inj_on {a b : String} (ha : a ∈ recognizedSeverities)
    (hb : b ∈ recognizedSeverities) (h : severity_order a = severity_order b) :
    a = b := by
  have : ∀ x ∈ recognizedSeverities, ∀ y ∈ recognizedSeverities,
      severity_order x = severity_order y → x = y := by decide
  exact this a ha b hb h

/-- The running rank never decreases through the loop. -/
theorem sevLoop_ge (l : List String) : ∀ hs hv, hv ≤ severity_order hs →
    hv ≤ severity_order (sevLoop l hs hv) := by
  induction l with
  | nil => intro hs hv h; simpa [sevLoop] using h
  | cons s rest ih =>
      intro hs hv h
      by_cases hlt : hv < severity_order s
      · rw [sevLoop, if_pos hlt]
        exact le_trans (le_of_lt hlt) (ih s (severity_order s) le_rfl)
      · rw [sevLoop, if_neg hlt]
        exact ih hs hv h

/-- The loop's result ranks at least every element scanned. -/
theorem sevLoop_ub (l : List String) : ∀ hs hv, hv ≤ severity_order hs →
    ∀ s ∈ l, severity_order s ≤ severity_order (sevLoop l hs hv) := by
  induction l with
  | nil => intro _ _ _ s hs; simp at hs
  | cons a rest ih =>
      intro hs hv h s hsmem
      rcases List.mem_cons.mp hsmem with rfl | hmem
      · by_cases hlt : hv < severity_order s
        · rw [sevLoop, if_pos hlt]
          exact sevLoop_ge rest s (severity_order s) le_rfl
        · rw [sevLoop, if_neg hlt]
          exact le_trans (le_of_not_lt hlt) (sevLoop_ge rest hs hv h)
      · by_cases hlt : hv < severity_order a
        · rw [sevLoop, if_pos hlt]
          exact ih a (severity_order a) le_rfl s hmem
        · rw [sevLoop, if_neg hlt]
          exact ih hs hv h s hmem

/-- The loop's result is the initial candidate or one of the elements. -/
theorem sevLoop_mem (l : List String) : ∀ hs hv,
    sevLoop l hs hv = hs ∨ sevLoop l hs hv ∈ l := by
  induction l with
  | nil => intro hs hv; exact Or.inl rfl
  | cons a rest ih =>
      intro hs hv
      by_cases hlt : hv < severity_order a
      · rw [sevLoop, if_pos hlt]
        rcases ih a (severity_order a) with h | h
        · exact Or.inr (by simp [h])
        · exact Or.inr (List.mem_cons_of_mem a h)
      · rw [sevLoop, if_neg hlt]
        rcases ih hs hv with h | h
        · exact Or.inl h
        · exact Or.inr (List.mem_cons_of_mem a h)

/-- If some element strictly beats the running rank, the result is an
element of the list. -/
theorem sevLoop_mem_of_exists (l : List String) : ∀ hs hv,
    (∃ s ∈ l, hv < severity_order s) → sevLoop l hs hv ∈ l := by
  induction l with
  | nil => intro _ _ h; simp at h
  | cons a rest ih =>
      intro hs hv h
      by_cases hlt : hv < severity_order a
      · rw [sevLoop, if_pos hlt]
        rcases sevLoop_mem rest a (severity_order a) with he | he
        · simp [he]
        · exact List.mem_cons_of_mem a he
      · rw [sevLoop, if_neg hlt]
        obtain ⟨s, hsmem, hslt⟩ := h
        rcases List.mem_cons.mp hsmem with rfl | hmem
        · exact absurd hslt hlt
        · exact List.mem_cons_of_mem a (ih hs hv ⟨s, hmem, hslt⟩)

/-- When every scanned rank is zero the loop keeps its initial candidate. -/
theorem sevLoop_all_zero (l : List String) : ∀ hs,
    (∀ s ∈ l, severity_order s = 0) → sevLoop l hs 0 = hs := by
  induction l with
  | nil => intro hs _; rfl
  | cons a rest ih =>
      intro hs h
      have ha : severity_order a = 0 := h a (by simp)
      rw [sevLoop, if_neg (by rw [ha]; exact lt_irrefl 0)]
      exact ih hs (fun s hs' => h s (List.mem_cons_of_mem a hs'))

theorem getHighestSeverity_ub (l : List String) :
    ∀ s ∈ l, severity_order s ≤ severity_order (getHighestSeverity l) :=
  sevLoop_ub l "low" 0 (Nat.zero_le _)

theorem getHighestSeverity_mem (l : List String)
    (h : ∃ s ∈ l, 0 < severity_order s) : getHighestSeverity l ∈ l :=
  sevLoop_mem_of_exists l "low" 0 h

/-- Over recognized severities the loop result is invariant under
permutation of the input. -/
theorem getHighestSeverity_perm {l l' : List String} (hp : l.Perm l')
    (hrec : ∀ s ∈ l, s ∈ recognizedSeverities) (hne : l ≠ []) :
    getHighestSeverity l = getHighestSeverity l' := by
  have hrec' : ∀ s ∈ l', s ∈ recognizedSeverities := fun s hs =>
    hrec s (hp.mem_iff.mpr hs)
  obtain ⟨a, ta, rfl⟩ := List.exists_cons_of_ne_nil hne
  have hne' : l' ≠ [] := by
    intro h
    subst h
    exact absurd hp.length_eq (by simp)
  obtain ⟨a', ta', rfl⟩ := List.exists_cons_of_ne_nil hne'
  have hmem : getHighestSeverity (a :: ta) ∈ a :: ta :=
    getHighestSeverity_mem _ ⟨a, by simp, severity_order_pos_of_mem (hrec a (by simp))⟩
  have hmem' : getHighestSeverity (a' :: ta') ∈ a' :: ta' :=
    getHighestSeverity_mem _ ⟨a', by simp, severity_order_pos_of_mem (hrec' a' (by simp))⟩
  have h1 : severity_order (getHighestSeverity (a :: ta))
      ≤ severity_order (getHighestSeverity (a' :: ta')) :=
    getHighestSeverity_ub _ _ (hp.mem_iff.mp hmem)
  have h2 : severity_order (getHighestSeverity (a' :: ta'))
      ≤ severity_order (getHighestSeverity (a :: ta)) :=
    getHighestSeverity_ub _ _ (hp.mem_iff.mpr hmem')
  exact severity_order_inj_on (hrec _ hmem) (hrec' _ hmem') (le_antisymm h1 h2)

/-- Claim C6: for clusters of two or more whose severities are all
recognized, the merged severity is the maximum member severity under
low < medium < high < critical, identically for every permutation of the
members. -/
theorem C6_merged_severity_is_max (now now' : Nat) (l l' : List Opportunity)
    (m m' : Opportunity) (hlen : 2 ≤ l.length)
    (hrec : ∀ o ∈ l, o.severity ∈ recognizedSeverities) (hperm : l.Perm l')
    (hm : mergeOpportunityGroup now l = some m)
    (hm' : mergeOpportunityGroup now' l' = some m') :
    (m.severity ∈ l.map (·.severity) ∧
      ∀ o ∈ l, severity_order o.severity ≤ severity_order m.severity)
    ∧ m.severity = m'.severity := by
  have hlen' : 2 ≤ l'.length := hperm.length_eq ▸ hlen
  have e1 : m.severity = getHighestSeverity (l.map (·.severity)) :=
    merge_severity_eq now l m hlen hm
  have e2 : m'.severity = getHighestSeverity (l'.map (·.severity)) :=
    merge_severity_eq now' l' m' hlen' hm'
  have hrecls : ∀ s ∈ l.map (·.severity), s ∈ recognizedSeverities := by
    intro s hs
    obtain ⟨o, ho, rfl⟩ := List.mem_map.mp hs
    exact hrec o ho
  have hnels : l.map (·.severity) ≠ [] := by
    intro h
    rw [List.map_eq_nil] at h
    subst h
    simp at hlen
  refine ⟨⟨?_, ?_⟩, ?_⟩
  · rw [e1]
    obtain ⟨a, ta, ha⟩ := List.exists_cons_of_ne_nil hnels
    refine getHighestSeverity_mem _ ⟨a, by rw [ha]; simp, ?_⟩
    exact severity_order_pos_of_mem (hrecls a (by rw [ha]; simp))
  · intro o ho
    rw [e1]
    exact getHighestSeverity_ub _ _ (List.mem_map_of_mem _ ho)
  · rw [e1, e2]
    exact getHighestSeverity_perm (hperm.map _) hrecls hnels

/-- A concrete two-member cluster and its reversal, for the C6 witness. -/
def lC6 : List Opportunity := [mkOpp "A" "medium" "a", mkOpp "B" "critical" "b"]

def lC6r : List Opportunity := [mkOpp "B" "critical" "b", mkOpp "A" "medium" "a"]

def mC6 : Opportunity := (mergeOpportunityGroup 0 lC6).getD dOpp

def mC6r : Opportunity := (mergeOpportunityGroup 1 lC6r).getD dOpp

/-- A witness for C6 on a concrete cluster and its reversal. -/
theorem C6_merged_severity_is_max_witness :
    (mC6.severity ∈ lC6.map (·.severity) ∧
      ∀ o ∈ lC6, severity_order o.severity ≤ severity_order mC6.severity)
    ∧ mC6.severity = mC6r.severity :=
  C6_merged_severity_is_max 0 1 lC6 lC6r mC6 mC6r (by decide) (by decide)
    (by decide) (by decide) (by decide)

/-- Claim C10: an unrecognized severity string ranks strictly below `low`,
and a two-or-more cluster with no recognized severity merges to severity
`low`. -/
theorem C10_unrecognized_severity_below_low :
    (∀ s : String, s ∉ recognizedSeverities →
      severity_order s < severity_order "low")
    ∧ (∀ (now : Nat) (l : List Opportunity) (m : Opportunity), 2 ≤ l.length →
        (∀ o ∈ l, o.severity ∉ recognizedSeverities) →
        mergeOpportunityGroup now l = some m → m.severity = "low") := by
  constructor
  · intro s h
    rw [severity_order_eq_zero h]
    decide
  · intro now l m hlen hunrec hm
    rw [merge_severity_eq now l m hlen hm]
    apply sevLoop_all_zero
    intro s hs
    obtain ⟨o, ho, rfl⟩ := List.mem_map.mp hs
    exact severity_order_eq_zero (hunrec o ho)

/-- A concrete cluster with only unrecognized severities, for the C10
witness. -/
def lC10 : List Opportunity := [mkOpp "A" "urgente" "a", mkOpp "B" "HIGH" "b"]

def mC10 : Opportunity := (mergeOpportunityGroup 0 lC10).getD dOpp

/-- A witness for C10 at a concrete input. -/
theorem C10_unrecognized_severity_below_low_witness :
    severity_order "urgente" < severity_order "low" ∧ mC10.severity = "low" :=
  ⟨C10_unrecognized_severity_below_low.1 "urgente" (by decide),
    C10_unrecognized_severity_below_low.2 0 lC10 mC10 (by decide) (by decide)
      (by decide)⟩

/-! ### Identifier derivation (claim C8) -/

/-- The opportunity built from `dataA` under the constant-zero hash. -/
def oCol1 : Opportunity :=
  (createOpportunityFromAnalysis (fun _ => 0) dataA itemW 0 none).toOption.getD dOpp

/-- The opportunity built from `dataB` under the constant-zero hash. -/
def oCol2 : Opportunity :=
  (createOpportunityFromAnalysis (fun _ => 0) dataB itemW 0 none).toOption.getD dOpp

/-- Claim C8 counterexample: it is not true that, whatever the run's hash
function, two different titles from the same item always yield different
ids — only the hash modulo 10000 enters the id, so collisions occur. -/
theorem C8_distinct_titles_distinct_ids_counterexample :
    ¬ (∀ (pyHash : String → Int) (item : ContentItem) (d1 d2 : OppData)
        (n1 n2 : Nat) (p1 p2 : Option Nat) (o1 o2 : Opportunity),
        createOpportunityFromAnalysis pyHash d1 item n1 p1 = .ok o1 →
        createOpportunityFromAnalysis pyHash d2 item n2 p2 = .ok o2 →
        d1.title ≠ d2.title → o1.id ≠ o2.id) := by
  intro h
  exact h (fun _ => 0) itemW dataA dataB 0 0 none none oCol1 oCol2 rfl rfl
    (by decide) (by decide)

/-- Claim C8 (amended): the id is a deterministic function of the item id
and the title — within one run the same pair always yields the same id,
whatever the other fields or timestamps — but for every hash function there
exist two distinct titles that collide on the same item, because only the
hash modulo 10000 enters the id. -/
theorem C8_id_deterministic_but_titles_can_collide :
    (∀ (pyHash : String → Int) (item : ContentItem) (d1 d2 : OppData)
        (n1 n2 : Nat) (p1 p2 : Option Nat) (o1 o2 : Opportunity),
        d1.title = d2.title →
        createOpportunityFromAnalysis pyHash d1 item n1 p1 = .ok o1 →
        createOpportunityFromAnalysis pyHash d2 item n2 p2 = .ok o2 →
        o1.id = o2.id)
    ∧ (∀ (pyHash : String → Int) (item : ContentItem), ∃ t1 t2 : String,
        t1 ≠ t2 ∧ ∀ (d1 d2 : OppData) (n1 n2 : Nat) (p1 p2 : Option Nat)
          (o1 o2 : Opportunity), d1.title = some t1 → d2.title = some t2 →
          createOpportunityFromAnalysis pyHash d1 item n1 p1 = .ok o1 →
          createOpportunityFromAnalysis pyHash d2 item n2 p2 = .ok o2 →
          o1.id = o2.id) := by
  constructor
  · intro pyHash item d1 d2 n1 n2 p1 p2 o1 o2 ht h1 h2
    cases hd1 : d1.title with
    | none => simp [createOpportunityFromAnalysis, hd1] at h1
    | some t =>
        have hd2 : d2.title = some t := ht ▸ hd1
        simp only [createOpportunityFromAnalysis, hd1, hd2, Except.ok.injEq] at h1 h2
        rw [← h1, ← h2]
  · intro pyHash item
    have hfinj : Function.Injective (fun k : ℕ => String.mk (List.replicate k 'a')) := by
      intro a b hab
      have := congrArg (fun s : String => s.data.length) hab
      simpa using this
    have hcard : ((Finset.range 10001).image
        (fun k : ℕ => String.mk (List.replicate k 'a'))).card = 10001 := by
      rw [Finset.card_image_of_injective _ hfinj, Finset.card_range]
    have hmaps : ∀ t ∈ (Finset.range 10001).image
        (fun k : ℕ => String.mk (List.replicate k 'a')),
        (pyHash t % 10000).toNat ∈ Finset.range 10000 := by
      intro t _
      rw [Finset.mem_range]
      have h0 : (0 : ℤ) ≤ pyHash t % 10000 := Int.emod_nonneg _ (by norm_num)
      have h1 : pyHash t % 10000 < 10000 := Int.emod_lt_of_pos _ (by norm_num)
      omega
    obtain ⟨t1, _, t2, _, hne, heq⟩ :=
      Finset.exists_ne_map_eq_of_card_lt_of_maps_to
        (by rw [hcard, Finset.card_range]; norm_num) hmaps
    refine ⟨t1, t2, hne, ?_⟩
    intro d1 d2 n1 n2 p1 p2 o1 o2 hd1 hd2 h1 h2
    have hmod : pyHash t1 % 10000 = pyHash t2 % 10000 := by
      have h0a : (0 : ℤ) ≤ pyHash t1 % 10000 := Int.emod_nonneg _ (by norm_num)
      have h0b : (0 : ℤ) ≤ pyHash t2 % 10000 := Int.emod_nonneg _ (by norm_num)
      omega
    simp only [createOpportunityFromAnalysis, hd1, hd2, Except.ok.injEq] at h1 h2
    rw [← h1, ← h2]
    simp [hmod]

/-- The opportunity built from `dataA` at time 0. -/
def oDet1 : Opportunity :=
  (createOpportunityFromAnalysis (fun _ => 0) dataA itemW 0 none).toOption.getD dOpp

/-- The opportunity built from `dataA` at time 5 with an explicit
processing date. -/
def oDet2 : Opportunity :=
  (createOpportunityFromAnalysis (fun _ => 0) dataA itemW 5 (some 3)).toOption.getD dOpp

/-- A witness for C8's determinism half at a concrete input. -/
theorem C8_id_deterministic_but_titles_can_collide_witness :
    oDet1.id = oDet2.id :=
  C8_id_deterministic_but_titles_can_collide.1 (fun _ => 0) itemW dataA dataA
    0 5 none (some 3) oDet1 oDet2 rfl rfl rfl

/-! ### Description merging (claim C7) -/

/-- The description field of a merged two-or-more cluster is
`_merge_descriptions` of the members' descriptions. -/
theorem merge_description_eq (now : Nat) (l : List Opportunity) (m : Opportunity)
    (h : 2 ≤ l.length) (hm : mergeOpportunityGroup now l = some m) :
    m.description = mergeDescriptions (l.map (·.description)) := by
  match l with
  | [] => simp at h
  | [o] => simp at h
  | a :: b :: rest =>
      simp only [mergeOpportunityGroup, Option.some.injEq] at hm
      rw [← hm]

/-- The claim's reading of the dedup step, stated from the spec's words:
deduplicate the descriptions themselves by case-insensitive trimmed
equality, keeping the first occurrence in member order. -/
def claimedDedup : List String → List String → List String
  | [], _ => []
  | d :: rest, seen =>
      if pyLower (pyStrip d) ∉ seen then
        d :: claimedDedup rest (pyLower (pyStrip d) :: seen)
      else claimedDedup rest seen

/-- The claim's reading of `_merge_descriptions`, stated from the spec's
words: join the deduplicated descriptions with " | " when more than one
remains, unwrap a single one. -/
def claimedMergeDescriptions (descriptions : List String) : String :=
  let u := claimedDedup descriptions []
  if u.length = 1 then u.headD "" else String.intercalate " | " u

/-- A concrete cluster whose first description is whitespace-only. -/
def lC7 : List Opportunity := [mkOpp "A" "low" "   ", mkOpp "B" "low" "x"]

def mC7 : Opportunity := (mergeOpportunityGroup 0 lC7).getD dOpp

/-- Claim C7 counterexample: on a cluster whose first description is
whitespace-only the code drops that description entirely and returns the
other one unwrapped, while the claimed dedup-and-join keeps it as a distinct
entry and joins the two. -/
theorem C7_description_dedup_counterexample :
    mergeOpportunityGroup 0 lC7 = some mC7
    ∧ mC7.description = "x"
    ∧ claimedMergeDescriptions (lC7.map (·.description)) = "   " ++ " | " ++ "x"
    ∧ mC7.description ≠ claimedMergeDescriptions (lC7.map (·.description)) := by
  decide

/-- The effect of `pyLower` on emptiness. -/
theorem pyLower_eq_empty {s : String} (h : pyLower s = "") : s = "" := by
  have hd := congrArg String.data h
  simp only [pyLower] at hd
  have h2 : s.data = [] := by simpa using hd
  cases s
  simp_all

/-- The staged reading of the dedup: first occurrences survive, later
case-insensitive duplicates are removed. -/
def specGo : List String → List String
  | [] => []
  | d :: rest => d :: specGo (rest.filter (fun x => decide (pyLower x ≠ pyLower d)))
termination_by l => l.length
decreasing_by
  simp only [List.length_cons]
  exact Nat.lt_succ_of_le (List.length_filter_le _ _)

/-- The amended description spec, staged: trim every description, drop those
empty after trimming, then remove later case-insensitive duplicates. -/
def specUniqueDescs (l : List String) : List String :=
  specGo ((l.map pyStrip).filter (fun x => decide (x ≠ "")))

/-- The amended description spec: join with " | " when more than one
distinct description remains, unwrap a single one, empty when none do. -/
def specMergeDescriptions (descriptions : List String) : String :=
  let u := specUniqueDescs descriptions
  if u.length = 1 then u.headD "" else String.intercalate " | " u

/-- The seen-set accumulation of the source equals the staged
filter-then-dedup formulation, for any starting `seen`. -/
theorem dedupDescs_eq_specGo (l : List String) : ∀ seen : List String,
    dedupDescs l seen
      = specGo ((l.map pyStrip).filter
          (fun x => decide (x ≠ "" ∧ pyLower x ∉ seen))) := by
  induction l with
  | nil => intro seen; simp [dedupDescs, specGo]
  | cons d rest ih =>
      intro seen
      have hiff : (pyLower (pyStrip d) ∉ seen ∧ pyLower (pyStrip d) ≠ "")
          ↔ (pyStrip d ≠ "" ∧ pyLower (pyStrip d) ∉ seen) := by
        constructor
        · rintro ⟨h1, h2⟩
          refine ⟨fun he => h2 (by rw [he]; rfl), h1⟩
        · rintro ⟨h1, h2⟩
          exact ⟨h2, fun he => h1 (pyLower_eq_empty he)⟩
      by_cases hc : pyLower (pyStrip d) ∉ seen ∧ pyLower (pyStrip d) ≠ ""
      · rw [dedupDescs, if_pos hc, List.map_cons,
          List.filter_cons_of_pos (by simpa using hiff.mp hc), specGo]
        congr 1
        rw [ih, List.filter_filter]
        apply congrArg specGo
        apply List.filter_congr
        intro x _
        rw [← Bool.decide_and, decide_eq_decide]
        constructor
        · rintro ⟨hx, hns⟩
          rw [List.mem_cons, not_or] at hns
          exact ⟨hns.1, hx, hns.2⟩
        · rintro ⟨hnd, hx, hns⟩
          refine ⟨hx, ?_⟩
          rw [List.mem_cons, not_or]
          exact ⟨hnd, hns⟩
      · rw [dedupDescs, if_neg hc, List.map_cons,
          List.filter_cons_of_neg (by simpa using fun h => hc (hiff.mpr h))]
        exact ih seen

/-- On a two-or-more list `_merge_descriptions` takes its general branch. -/
theorem mergeDescriptions_cons_cons (d e : String) (rest : List String) :
    mergeDescriptions (d :: e :: rest)
      = (let u := dedupDescs (d :: e :: rest) [];
        if u.length = 1 then u.headD "" else String.intercalate " | " u) := rfl

/-- `_merge_descriptions`' dedup from the empty seen set is the staged
spec dedup. -/
theorem dedupDescs_nil_eq_specUnique (l : List String) :
    dedupDescs l [] = specUniqueDescs l := by
  rw [dedupDescs_eq_specGo]
  unfold specUniqueDescs
  congr 1
  apply List.filter_congr
  intro x _
  rw [decide_eq_decide]
  simp

/-- Claim C7 (amended): for every cluster of two or more, the merged
description equals: members' descriptions trimmed, those empty after
trimming dropped, later case-insensitive duplicates removed (first
occurrence kept, in member order), joined with " | " when more than one
remains and unwrapped when exactly one remains. -/
theorem C7_merged_description_amended (now : Nat) (l : List Opportunity)
    (m : Opportunity) (hlen : 2 ≤ l.length)
    (hm : mergeOpportunityGroup now l = some m) :
    m.description = specMergeDescriptions (l.map (·.description)) := by
  rw [merge_description_eq now l m hlen hm]
  match l with
  | [] => simp at hlen
  | [o] => simp at hlen
  | a :: b :: rest =>
      simp only [List.map_cons]
      rw [mergeDescriptions_cons_cons]
      simp only [specMergeDescriptions, dedupDescs_nil_eq_specUnique]

/-- A concrete three-member cluster for the C7 witness. -/
def lC7w : List Opportunity :=
  [mkOpp "A" "low" "  Hello ", mkOpp "B" "low" "hello", mkOpp "C" "low" "World"]

def mC7w : Opportunity := (mergeOpportunityGroup 0 lC7w).getD dOpp

/-- A witness for the amended C7 at a concrete cluster. -/
theorem C7_merged_description_amended_witness :
    mC7w.description = specMergeDescriptions (lC7w.map (·.description)) :=
  C7_merged_description_amended 0 lC7w mC7w (by decide) (by decide)

/-! ### Similarity grouping order sensitivity (claim C1) -/

def oA : Opportunity := mkOpp "A" "low" "a"

def oB : Opportunity := mkOpp "B" "low" "b"

def oC : Opportunity := mkOpp "C" "low" "c"

/-- Similarity matrix for processing order [A, B, C]: every pair similar
except A and C (positions 0 and 2). -/
def simC1 : Nat → Nat → ℚ := fun i j =>
  if (i, j) = (0, 2) ∨ (i, j) = (2, 0) then 0 else 1

/-- Similarity matrix for processing order [A, C, B]: every pair similar
except A and C (positions 0 and 1). -/
def simC1r : Nat → Nat → ℚ := fun i j =>
  if (i, j) = (0, 1) ∨ (i, j) = (1, 0) then 0 else 1

/-- Claim C1 counterexample: with sim(A,B) = sim(B,C) = 1 at or above the
threshold 1 and sim(A,C) = 0 below it, processing order [A, B, C] does
not place all three in one cluster — each candidate is compared to the seed
A only, so C ends up alone and the groups are {A, B} and {C}. -/
theorem C1_order_abc_one_cluster_counterexample :
    ((1 : ℚ) ≤ simC1 0 1) ∧ ((1 : ℚ) ≤ simC1 1 2)
    ∧ (simC1 0 2 < (1 : ℚ))
    ∧ findSimilarityGroups simC1 ((1 : ℚ)) [oA, oB, oC] = [[oA, oB], [oC]]
    ∧ (∀ g ∈ findSimilarityGroups simC1 ((1 : ℚ)) [oA, oB, oC],
        ¬(oA ∈ g ∧ oB ∈ g ∧ oC ∈ g)) := by
  decide

/-- Claim C1 (amended): attachment is by similarity to the seed only, so
with sim(A,B) ≥ th, sim(B,C) ≥ th and sim(A,C) < th the processing order
[A, B, C] produces the clusters {A, B} and {C} — C is not picked up through
B — and order [A, C, B] produces the same two clusters, B merging into the
first seed that reaches it (A) while C stays separate. -/
theorem C1_seed_linked_order_sensitivity (sim simr : Nat → Nat → ℚ) (th : ℚ)
    (A B C : Opportunity)
    (hab : th ≤ sim 0 1) (hbc : th ≤ sim 1 2) (hac : sim 0 2 < th)
    (hac' : simr 0 1 < th) (hab' : th ≤ simr 0 2) (hcb' : th ≤ simr 1 2) :
    findSimilarityGroups sim th [A, B, C] = [[A, B], [C]]
    ∧ findSimilarityGroups simr th [A, C, B] = [[A, B], [C]] := by
  constructor
  · have hac2 : ¬ th ≤ sim 0 2 := not_le.mpr hac
    have i0 : innerScan sim th 0 [1, 2] [true, false, false]
        = ([1], [true, true, false]) := by
      rw [innerScan, if_pos ⟨rfl, hab⟩, innerScan, if_neg (fun hc => hac2 hc.2),
        innerScan]
      rfl
    have o1 : outerScan sim th 3 [1, 2] [true, true, false] = [[2]] := by
      rw [outerScan, if_pos (by decide), outerScan, if_neg (by decide)]
      rfl
    have o0 : outerScan sim th 3 [0, 1, 2] [false, false, false]
        = [[0, 1], [2]] := by
      rw [outerScan, if_neg (by decide)]
      show (let r := innerScan sim th 0 [1, 2] [true, false, false];
        (0 :: r.1) :: outerScan sim th 3 [1, 2] r.2) = [[0, 1], [2]]
      rw [i0]
      show [0, 1] :: outerScan sim th 3 [1, 2] [true, true, false]
        = [[0, 1], [2]]
      rw [o1]
    show (outerScan sim th 3 [0, 1, 2] [false, false, false]).map
        (fun g => g.map (fun i => [A, B, C].getD i dOpp)) = [[A, B], [C]]
    rw [o0]
    rfl
  · have i0 : innerScan simr th 0 [1, 2] [true, false, false]
        = ([2], [true, false, true]) := by
      rw [innerScan, if_neg (fun hc => (not_le.mpr hac') hc.2), innerScan,
        if_pos ⟨rfl, hab'⟩, innerScan]
      rfl
    have o1 : outerScan simr th 3 [1, 2] [true, false, true] = [[1]] := by
      rw [outerScan, if_neg (by decide)]
      rfl
    have o0 : outerScan simr th 3 [0, 1, 2] [false, false, false]
        = [[0, 2], [1]] := by
      rw [outerScan, if_neg (by decide)]
      show (let r := innerScan simr th 0 [1, 2] [true, false, false];
        (0 :: r.1) :: outerScan simr th 3 [1, 2] r.2) = [[0, 2], [1]]
      rw [i0]
      show [0, 2] :: outerScan simr th 3 [1, 2] [true, false, true]
        = [[0, 2], [1]]
      rw [o1]
    show (outerScan simr th 3 [0, 1, 2] [false, false, false]).map
        (fun g => g.map (fun i => [A, C, B].getD i dOpp)) = [[A, B], [C]]
    rw [o0]
    rfl

/-- A witness for the amended C1 at the concrete similarity matrices. -/
theorem C1_seed_linked_order_sensitivity_witness :
    findSimilarityGroups simC1 ((1 : ℚ)) [oA, oB, oC] = [[oA, oB], [oC]]
    ∧ findSimilarityGroups simC1r ((1 : ℚ)) [oA, oC, oB] = [[oA, oB], [oC]] :=
  C1_seed_linked_order_sensitivity simC1 simC1r ((1 : ℚ)) oA oB oC
    (by decide) (by decide) (by decide) (by decide) (by decide) (by decide)
